import Mathlib

/-!
Verification of the viral-content pipeline: a shallow embedding of the
scoring engine (`instagram.py`), the cross-platform normalizer and selector
(`viral_identification.py`), and the persistence layer (`database.py`),
together with theorems settling the specification's claims about them.

Modelling conventions:
* Python dicts holding video records become a structure of `Option` fields;
  `none` models an absent key, `video.get(k, d)` becomes `Option.getD`.
* Python floats are modelled as exact rationals `ℚ`; `round(x, 1)` is
  round-half-to-even at one decimal, as Python's `round` performs.
* Calendar dates are modelled as integer day numbers; `datetime.now()` is an
  explicit `now`/`today` parameter threaded into every function that reads
  the clock.
* sqlite tables become lists of rows; `INSERT OR REPLACE` removes the row
  with the same primary key and appends the new row; inserting `NULL` into a
  `NOT NULL` column is an `Except.error`, as sqlite raises `IntegrityError`.
-/

/-- Round-half-to-even on rationals, the tie-breaking rule of Python's
built-in `round`. -/
def roundHalfEven (x : ℚ) : ℤ :=
  if x - ⌊x⌋ = 1/2 then (if Even ⌊x⌋ then ⌊x⌋ else ⌊x⌋ + 1) else round x

/-- Python's `round(x, 1)`: round to one decimal place, ties to even. -/
def round1 (x : ℚ) : ℚ :=
  (roundHalfEven (10 * x) : ℚ) / 10

/-- A raw Instagram video record as handled by `instagram.py`: the fields the
scoring engine reads or writes.  `views` models `video["views"]` (always
present on collected records); `performance_ratio` is the key written by
`identify_viral_videos`; `rest` stands for the remaining fields of the dict,
which the scoring engine carries through untouched. -/
structure IGVideo where
  views : ℤ
  performance_ratio : Option ℚ
  rest : String
  deriving DecidableEq, Repr

namespace Instagram

/-- `instagram.calculate_average_views`: `0` for an empty list, else the sum
of views divided by the count (Python float division, modelled in `ℚ`). -/
def calculate_average_views (videos : List IGVideo) : ℚ :=
  if videos = [] then 0
  else ((videos.map (fun v => v.views)).sum : ℚ) / (videos.length : ℚ)

/-- The per-record ratio computed inside `instagram.identify_viral_videos`:
`video["views"] / avg_views if avg_views > 0 else 0`. -/
def ratioOf (avg : ℚ) (views : ℤ) : ℚ :=
  if 0 < avg then (views : ℚ) / avg else 0

/-- `instagram.identify_viral_videos`: computes the cohort average, keeps the
records whose (unrounded) ratio is at least `min_ratio`, and stores the ratio
rounded to one decimal under `performance_ratio` on each kept record,
preserving input order. -/
def identify_viral_videos (videos : List IGVideo) (min_ratio : ℚ) : List IGVideo :=
  if videos = [] then []
  else
    let avg := calculate_average_views videos
    videos.filterMap (fun v =>
      let ratio := ratioOf avg v.views
      if min_ratio ≤ ratio then
        some { v with performance_ratio := some (round1 ratio) }
      else none)

end Instagram

example :
    Instagram.calculate_average_views
      [⟨10000, none, "a"⟩, ⟨20000, none, "b"⟩, ⟨5000, none, "c"⟩, ⟨50000, none, "d"⟩] = 21250 := by
  norm_num [Instagram.calculate_average_views, List.cons_ne_nil]

example :
    Instagram.identify_viral_videos
      [⟨10000, none, "a"⟩, ⟨20000, none, "b"⟩, ⟨5000, none, "c"⟩, ⟨50000, none, "d"⟩] 2
      = [⟨50000, some (12/5), "d"⟩] := by
  norm_num [Instagram.identify_viral_videos, Instagram.calculate_average_views,
    Instagram.ratioOf, round1, roundHalfEven, round_eq, Int.floor_eq_iff, Int.even_iff,
    List.filterMap, List.cons_ne_nil]

/-- A raw cross-platform video record as handled by `viral_identification.py`
and `database.py`: a Python dict modelled as one `Option` field per key those
modules consult.  `none` models an absent key. -/
structure RawVideo where
  id : Option String
  platform : Option String
  title : Option String
  url : Option String
  thumbnail : Option String
  views : Option ℤ
  performance_ratio : Option ℚ
  post_date : Option String
  profile : Option String
  channel_id : Option String
  username : Option String
  page_id : Option String
  creator : Option String
  videoId : Option String
  deriving DecidableEq, Repr

/-- The creator-resolution cascade of `normalize_video_data`: `profile`, else
`channel_id`, else `username`, else `page_id`, else `"Unknown Creator"`. -/
def resolve_creator (v : RawVideo) : String :=
  match v.profile with
  | some p => p
  | none =>
    match v.channel_id with
    | some c => c
    | none =>
      match v.username with
      | some u => u
      | none =>
        match v.page_id with
        | some p => p
        | none => "Unknown Creator"

/-- The body of the loop in `normalize_video_data` for one record: builds the
normalized dict with exactly the keys `id`, `platform`, `title`, `url`,
`thumbnail`, `views`, `performance_ratio`, `post_date`, `creator`, plus
`videoId` when `video.get("platform") == "youtube"`.  `now` models the
`datetime.now().isoformat()` default for a missing `post_date`. -/
def normalize_entry (now : String) (v : RawVideo) : RawVideo where
  id := some (v.id.getD "")
  platform := some (v.platform.getD "unknown")
  title := some (v.title.getD "Untitled Video")
  url := some (v.url.getD "")
  thumbnail := some (v.thumbnail.getD "")
  views := some (v.views.getD 0)
  performance_ratio := some (v.performance_ratio.getD 1)
  post_date := some (v.post_date.getD now)
  profile := none
  channel_id := none
  username := none
  page_id := none
  creator := some (resolve_creator v)
  videoId := if v.platform = some "youtube" then some (v.videoId.getD (v.id.getD "")) else none

/-- `viral_identification.normalize_video_data`: normalizes each record in
order (the Python loop appends one normalized dict per input record). -/
def normalize_video_data (now : String) (videos : List RawVideo) : List RawVideo :=
  videos.map (normalize_entry now)

/-- `video.get("performance_ratio", 0)`, the ratio read by
`select_top_viral_videos`. -/
def ratio_or_zero (v : RawVideo) : ℚ :=
  v.performance_ratio.getD 0

/-- `viral_identification.select_top_viral_videos`: filter by
`performance_ratio >= min_ratio`, stable-sort by ratio descending (Python's
`list.sort(key=..., reverse=True)` is stable: equal keys keep their input
order; `List.mergeSort` has the same stability guarantee), take `count`. -/
def select_top_viral_videos (videos : List RawVideo) (count : ℕ) (min_ratio : ℚ) :
    List RawVideo :=
  ((videos.filter fun v => decide (min_ratio ≤ ratio_or_zero v)).mergeSort
    (fun a b => decide (ratio_or_zero b ≤ ratio_or_zero a))).take count

/-- The specification's reading of top-viral selection: pair every record
with its input position, keep those whose ratio is at least `min_ratio`, sort
by ratio descending with ties going to the smaller input position, drop the
positions and take the first `count`. -/
def select_top_viral_videos_spec (videos : List RawVideo) (count : ℕ) (min_ratio : ℚ) :
    List RawVideo :=
  (((videos.enum.filter fun q => decide (min_ratio ≤ ratio_or_zero q.2)).mergeSort
    (fun q r => decide (ratio_or_zero r.2 < ratio_or_zero q.2 ∨
      (ratio_or_zero q.2 = ratio_or_zero r.2 ∧ q.1 ≤ r.1)))).map Prod.snd).take count

/-- In a strictly increasing list of naturals, the number of entries below
the `k`-th entry is exactly `k`. -/
theorem countP_lt_getElem_of_sorted (ms : List ℕ) (h : ms.Pairwise (· < ·)) (k : ℕ)
    (hk : k < ms.length) : ms.countP (fun j => decide (j < ms[k])) = k := by
  induction ms generalizing k with
  | nil => simp at hk
  | cons a t ih =>
    rcases k with _ | k
    · simp only [List.getElem_cons_zero]
      rw [List.countP_cons]
      have ht : ∀ x ∈ t, ¬ (x < a) := by
        intro x hx
        exact not_lt.mpr (le_of_lt ((List.pairwise_cons.mp h).1 x hx))
      have h0 : List.countP (fun j => decide (j < a)) t = 0 := by
        rw [List.countP_eq_zero]
        intro x hx
        simpa using ht x hx
      simp [h0]
    · have hk' : k < t.length := by simpa using hk
      simp only [List.getElem_cons_succ]
      rw [List.countP_cons]
      have ha : a < t[k] := (List.pairwise_cons.mp h).1 _ (t.getElem_mem hk')
      have := ih (List.pairwise_cons.mp h).2 k hk'
      simp [this, ha]

/-- Sorting an index-record list with `enumLE` only consults the relative
order of the indices: renumbering a strictly increasing index column to
`0, 1, 2, …` does not change the sorted record column. -/
theorem map_snd_mergeSort_enum_of {α : Type} (le : α → α → Bool) (L : List (ℕ × α))
    (hL : L.Pairwise (fun p q => p.1 < q.1)) :
    (L.mergeSort (List.enumLE le)).map Prod.snd
      = (((L.map Prod.snd).enum).mergeSort (List.enumLE le)).map Prod.snd := by
  classical
  set ms := L.map Prod.fst with hms
  set f : ℕ × α → ℕ × α := fun p => (ms.countP (fun j => decide (j < p.1)), p.2) with hf
  have hsorted : ms.Pairwise (· < ·) := hL.map Prod.fst (fun _ _ h => h)
  have hrank : ∀ k (hk : k < L.length), ms.countP (fun j => decide (j < L[k].1)) = k := by
    intro k hk
    have hk' : k < ms.length := by simp [hms, hk]
    have he : L[k].1 = ms[k] := by simp [hms]
    rw [he]
    exact countP_lt_getElem_of_sorted ms hsorted k hk'
  have hmapf : L.map f = (L.map Prod.snd).enum := by
    apply List.ext_getElem
    · simp
    · intro i h1 h2
      have hi : i < L.length := by simpa using h1
      simp only [List.getElem_map, List.getElem_enum, hf]
      exact Prod.ext (hrank i hi) rfl
  have mono : ∀ {x y : ℕ} (hx : x < L.length) (hy : y < L.length),
      (L[x].1 ≤ L[y].1) ↔ x ≤ y := by
    intro x y hx hy
    constructor
    · intro hle
      by_contra hxy
      push_neg at hxy
      have := (List.pairwise_iff_getElem.mp hL) y x hy hx hxy
      omega
    · intro hxy
      rcases Nat.eq_or_lt_of_le hxy with rfl | hlt
      · exact le_refl _
      · exact le_of_lt ((List.pairwise_iff_getElem.mp hL) x y hx hy hlt)
  have hcmp : ∀ a ∈ L, ∀ b ∈ L, List.enumLE le a b = List.enumLE le (f a) (f b) := by
    intro a ha b hb
    obtain ⟨i, hi, hia⟩ := List.getElem_of_mem ha
    obtain ⟨j, hj, hjb⟩ := List.getElem_of_mem hb
    have ra : (f a).1 = i := by
      simp only [hf]
      rw [← hia]
      exact hrank i hi
    have rb : (f b).1 = j := by
      simp only [hf]
      rw [← hjb]
      exact hrank j hj
    have key : (a.1 ≤ b.1) = ((f a).1 ≤ (f b).1) := by
      rw [ra, rb, ← hia, ← hjb]
      exact propext (mono hi hj)
    simp only [List.enumLE, hf, key]
  calc (L.mergeSort (List.enumLE le)).map Prod.snd
      = ((L.mergeSort (List.enumLE le)).map f).map Prod.snd := by
        rw [List.map_map]
        rfl
    _ = ((L.map f).mergeSort (List.enumLE le)).map Prod.snd := by
        rw [List.map_mergeSort hcmp]
    _ = (((L.map Prod.snd).enum).mergeSort (List.enumLE le)).map Prod.snd := by
        rw [hmapf]

/-- The lexicographic comparator "key strictly greater, or keys equal and
index at most" agrees with `List.enumLE` of the non-strict key comparator. -/
theorem lex_eq_enumLE {α : Type} (k : α → ℚ) (p q : ℕ × α) :
    (decide (k q.2 < k p.2 ∨ (k p.2 = k q.2 ∧ p.1 ≤ q.1)))
      = List.enumLE (fun a b => decide (k b ≤ k a)) p q := by
  simp only [List.enumLE]
  rcases lt_trichotomy (k p.2) (k q.2) with h | h | h
  · simp [not_lt.mpr h.le, h.ne, not_le.mpr h]
  · simp [h]
  · simp [h, h.ne', h.le, not_le.mpr h]

/-- Filtering an enumerated list keeps the index column strictly increasing. -/
theorem pairwise_fst_lt_enum_filter {α : Type} (l : List α) (p : ℕ × α → Bool) :
    (l.enum.filter p).Pairwise (fun a b : ℕ × α => a.1 < b.1) := by
  have h1 : (l.enum.map Prod.fst).Pairwise (· < ·) := by
    rw [List.enum_map_fst]
    exact List.pairwise_lt_range _
  rw [List.pairwise_map] at h1
  exact h1.sublist (List.filter_sublist _)

/-- Dropping indices commutes with filtering an enumerated list. -/
theorem map_snd_filter_enum {α : Type} (l : List α) (p : α → Bool) :
    ((l.enum.filter fun q => p q.2).map Prod.snd) = l.filter p := by
  have h := @List.filter_map _ _ p Prod.snd l.enum
  rw [List.enum_map_snd] at h
  rw [show (fun q : ℕ × α => p q.2) = (p ∘ Prod.snd) from rfl, ← h]

/-- A stable descending sort of the filtered records coincides with the
lexicographic sort by (key descending, input position ascending) of the
enumerated, filtered records. -/
theorem stable_sort_desc_eq_lex {α : Type} (k : α → ℚ) (p : α → Bool) (l : List α) :
    ((l.filter p).mergeSort (fun a b => decide (k b ≤ k a)))
      = ((l.enum.filter fun q => p q.2).mergeSort
          (fun q r => decide (k r.2 < k q.2 ∨ (k q.2 = k r.2 ∧ q.1 ≤ r.1)))).map Prod.snd := by
  have hfun : (fun q r : ℕ × α => decide (k r.2 < k q.2 ∨ (k q.2 = k r.2 ∧ q.1 ≤ r.1)))
      = List.enumLE (fun a b => decide (k b ≤ k a)) := by
    funext q r
    exact lex_eq_enumLE k q r
  rw [hfun]
  rw [map_snd_mergeSort_enum_of _ _ (pairwise_fst_lt_enum_filter l (fun q => p q.2))]
  rw [map_snd_filter_enum]
  exact List.mergeSort_enum.symm

/-- The record shape of the claim's selection scenario: an id and a
performance ratio, every other key absent. -/
def c2vid (i : String) (r : ℚ) : RawVideo :=
  ⟨some i, none, none, none, none, none, some r, none, none, none, none, none, none, none⟩

/-- C2: `select_top_viral_videos(videos, count, min_ratio)` returns the first
`count` elements of the records with `performance_ratio ≥ min_ratio`, sorted
by ratio descending with ties broken by original input position (an earlier
record ranks above any later record of equal ratio); in particular, for ids
1..5 with ratios [5.0, 3.0, 7.0, 1.5, 4.0], count 3 and min_ratio 3.0, the
result is the records with ids 3, 1, 5 in that order. -/
theorem select_top_viral_videos_correct :
    (∀ (videos : List RawVideo) (count : ℕ) (min_ratio : ℚ),
      select_top_viral_videos videos count min_ratio
        = select_top_viral_videos_spec videos count min_ratio) ∧
    select_top_viral_videos
        [c2vid "1" 5, c2vid "2" 3, c2vid "3" 7, c2vid "4" (3/2), c2vid "5" 4] 3 3
      = [c2vid "3" 7, c2vid "1" 5, c2vid "5" 4] := by
  constructor
  · intro videos count min_ratio
    unfold select_top_viral_videos select_top_viral_videos_spec
    exact congrArg (List.take count)
      (stable_sort_desc_eq_lex ratio_or_zero (fun v => decide (min_ratio ≤ ratio_or_zero v)) videos)
  · norm_num [select_top_viral_videos, c2vid, ratio_or_zero, List.mergeSort, List.splitInTwo,
      List.merge, List.filter]

/-- Pushing a guarded `some` through `filterMap` yields filter-then-map. -/
theorem filterMap_ite_eq_map_filter {α β : Type} (P : α → Prop) [DecidablePred P]
    (f : α → β) (l : List α) :
    l.filterMap (fun v => if P v then some (f v) else none)
      = (l.filter (fun v => decide (P v))).map f := by
  induction l with
  | nil => rfl
  | cons a t ih =>
    by_cases h : P a <;> simp [List.filterMap_cons, List.filter_cons, h, ih]

/-- C1 counterexample: in the cohort with views `[199, 1]` the average is
100 and the first record's ratio is 1.99, which rounds to 2.0 ≥ 2.0; yet the
engine outputs nothing, because its filter compares the *unrounded* ratio
with `min_ratio`. -/
theorem identify_viral_rounded_filter_counterexample :
    Instagram.identify_viral_videos [⟨199, none, "a"⟩, ⟨1, none, "b"⟩] 2 = [] ∧
    Instagram.calculate_average_views [⟨199, none, "a"⟩, ⟨1, none, "b"⟩] = 100 ∧
    (2 : ℚ) ≤ round1 (Instagram.ratioOf 100 199) := by
  refine ⟨?_, ?_, ?_⟩
  · norm_num [Instagram.identify_viral_videos, Instagram.calculate_average_views,
      Instagram.ratioOf, List.filterMap, List.cons_ne_nil]
  · norm_num [Instagram.calculate_average_views, List.cons_ne_nil]
  · norm_num [Instagram.ratioOf, round1, roundHalfEven, round_eq, Int.floor_eq_iff,
      Int.even_iff]

/-- C1 (amended): the engine outputs exactly the records whose *unrounded*
ratio `views / average` (0 when the average is not positive) is at least
`min_ratio`, in input order, each with the ratio rounded to one decimal
attached as `performance_ratio`; for the cohort `[10000, 20000, 5000, 50000]`
with `min_ratio = 2.0`, only the 50000-view record is output, with attached
ratio 2.4. -/
theorem identify_viral_videos_correct :
    (∀ (videos : List IGVideo) (min_ratio : ℚ),
      Instagram.identify_viral_videos videos min_ratio
        = (videos.filter (fun v => decide (min_ratio ≤
              Instagram.ratioOf (Instagram.calculate_average_views videos) v.views))).map
            (fun v => { v with performance_ratio := some (round1
              (Instagram.ratioOf (Instagram.calculate_average_views videos) v.views)) })) ∧
    Instagram.identify_viral_videos
        [⟨10000, none, "a"⟩, ⟨20000, none, "b"⟩, ⟨5000, none, "c"⟩, ⟨50000, none, "d"⟩] 2
      = [⟨50000, some (12/5), "d"⟩] := by
  constructor
  · intro videos min_ratio
    unfold Instagram.identify_viral_videos
    by_cases hv : videos = []
    · subst hv
      simp
    · simp only [hv, if_false]
      exact filterMap_ite_eq_map_filter _ _ videos
  · norm_num [Instagram.identify_viral_videos, Instagram.calculate_average_views,
      Instagram.ratioOf, round1, roundHalfEven, round_eq, Int.floor_eq_iff, Int.even_iff,
      List.filterMap, List.cons_ne_nil]

/-- The record with every key absent. -/
def emptyRaw : RawVideo :=
  ⟨none, none, none, none, none, none, none, none, none, none, none, none, none, none⟩

/-- C10 counterexample: on a record with no `post_date` key, two runs of
`normalize_video_data` at different times produce different output. -/
theorem normalize_video_data_time_counterexample :
    normalize_video_data "t1" [emptyRaw] ≠ normalize_video_data "t2" [emptyRaw] := by
  simp [normalize_video_data, normalize_entry, emptyRaw, RawVideo.mk.injEq]

/-- C10 (amended): `normalize_video_data` is a pure function of its input and
of the run's clock reading, and the clock is consulted only for records with
no `post_date`: on inputs whose records all carry `post_date`, two runs at
any two times agree. -/
theorem normalize_video_data_deterministic (now1 now2 : String) (l : List RawVideo)
    (h : ∀ v ∈ l, v.post_date.isSome) :
    normalize_video_data now1 l = normalize_video_data now2 l := by
  unfold normalize_video_data
  apply List.map_congr_left
  intro v hv
  obtain ⟨d, hd⟩ := Option.isSome_iff_exists.mp (h v hv)
  unfold normalize_entry
  simp [hd]

/-- Witness for `normalize_video_data_deterministic`. -/
theorem normalize_video_data_deterministic_witness :
    normalize_video_data "t1" [{ emptyRaw with post_date := some "2025-01-01" }]
      = normalize_video_data "t2" [{ emptyRaw with post_date := some "2025-01-01" }] :=
  normalize_video_data_deterministic "t1" "t2" _ (by simp [emptyRaw])

/-- The record of the idempotence counterexample: an Instagram record whose
creator comes from the `profile` key. -/
def c5raw : RawVideo :=
  { emptyRaw with platform := some "instagram", profile := some "alice" }

/-- C5 counterexample: normalizing an already-normalized record again is not
the identity — the first pass resolves `creator` to `"alice"` from `profile`,
but the normalized record no longer carries `profile`, so a second pass
resets `creator` to `"Unknown Creator"`. -/
theorem normalize_video_data_not_idempotent :
    normalize_video_data "t" (normalize_video_data "t" [c5raw])
      ≠ normalize_video_data "t" [c5raw] ∧
    (normalize_video_data "t" [c5raw]).map RawVideo.creator = [some "alice"] ∧
    (normalize_video_data "t" (normalize_video_data "t" [c5raw])).map RawVideo.creator
      = [some "Unknown Creator"] := by
  refine ⟨?_, ?_, ?_⟩ <;>
    simp [normalize_video_data, normalize_entry, resolve_creator, c5raw, emptyRaw,
      RawVideo.mk.injEq]

/-- C5 (amended): a second normalization pass preserves every field of every
record except `creator`, which it resets to `"Unknown Creator"` (the
normalized record no longer carries any of the four platform-specific creator
keys); hence the normalizer is idempotent exactly on records whose creator
resolved to `"Unknown Creator"`. -/
theorem normalize_video_data_second_pass (now : String) (l : List RawVideo) :
    normalize_video_data now (normalize_video_data now l)
      = (normalize_video_data now l).map
          (fun v => { v with creator := some "Unknown Creator" }) := by
  unfold normalize_video_data
  rw [List.map_map, List.map_map]
  apply List.map_congr_left
  intro v _
  show normalize_entry now (normalize_entry now v)
      = { normalize_entry now v with creator := some "Unknown Creator" }
  rcases hp : v.platform with _ | s
  · simp [normalize_entry, resolve_creator, hp]
  · by_cases hs : s = "youtube" <;> simp [normalize_entry, resolve_creator, hp, hs]

/-- C6 counterexample: a record with no `id` key normalizes to a record whose
`id` is the *empty* string, violating the non-empty-id invariant. -/
theorem normalize_video_data_id_counterexample :
    (normalize_video_data "t" [emptyRaw]).map RawVideo.id = [some ""] ∧
    ¬ (∀ w ∈ normalize_video_data "t" [emptyRaw], w.id ≠ some "") := by
  constructor
  · simp [normalize_video_data, normalize_entry, emptyRaw]
  · intro h
    have hm : normalize_entry "t" emptyRaw ∈ normalize_video_data "t" [emptyRaw] := by
      simp [normalize_video_data]
    exact h _ hm (by simp [normalize_entry, emptyRaw])

/-- C6 (amended): every output record's `platform` is the input's `platform`
when present and `"unknown"` otherwise — hence non-empty whenever no input
record carries an empty `platform` string — while the output `id` is the
input's `id` when present and the *empty* string otherwise; non-empty ids
are not guaranteed. -/
theorem normalize_video_data_id_platform (now : String) (l : List RawVideo)
    (h : ∀ v ∈ l, v.platform ≠ some "") :
    ((normalize_video_data now l).map RawVideo.id
        = l.map (fun v => some (v.id.getD ""))) ∧
    ((normalize_video_data now l).map RawVideo.platform
        = l.map (fun v => some (v.platform.getD "unknown"))) ∧
    ∀ w ∈ normalize_video_data now l, ∃ s, w.platform = some s ∧ s ≠ "" := by
  refine ⟨?_, ?_, ?_⟩
  · unfold normalize_video_data
    rw [List.map_map]
    rfl
  · unfold normalize_video_data
    rw [List.map_map]
    rfl
  · intro w hw
    obtain ⟨v, hv, rfl⟩ := List.mem_map.mp hw
    refine ⟨v.platform.getD "unknown", rfl, ?_⟩
    rcases hp : v.platform with _ | s
    · simp
    · simp only [Option.getD_some]
      intro hs
      exact h v hv (by rw [hp, hs])

/-- Witness for `normalize_video_data_id_platform`. -/
theorem normalize_video_data_id_platform_witness :
    ((normalize_video_data "t" [c5raw]).map RawVideo.id
        = [c5raw].map (fun v => some (v.id.getD ""))) ∧
    ((normalize_video_data "t" [c5raw]).map RawVideo.platform
        = [c5raw].map (fun v => some (v.platform.getD "unknown"))) ∧
    ∀ w ∈ normalize_video_data "t" [c5raw], ∃ s, w.platform = some s ∧ s ≠ "" :=
  normalize_video_data_id_platform "t" [c5raw]
    (by simp [c5raw, emptyRaw])

/-- A row of the sqlite `videos` table.  `id` is a TEXT PRIMARY KEY and may
be NULL (sqlite permits NULL in a non-INTEGER primary key); `profile_id` is
declared NOT NULL, so `add_video` errors before ever constructing a row with
no profile id. -/
structure VideoRow where
  id : Option String
  platform : String
  profile_id : String
  title : String
  url : String
  thumbnail : String
  views : ℤ
  performance_ratio : ℚ
  post_date : String
  collection_date : String
  deriving DecidableEq, Repr

/-- A row of `daily_top_videos`: primary key (`date`, `video_id`), plus the
1-based `rank`.  Dates are modelled as integer day numbers. -/
structure DailyRow where
  date : ℤ
  video_id : String
  rank : ℕ
  deriving DecidableEq, Repr

/-- The two tables of the store that the claims concern (`profiles` is
touched only by `add_profile`, which no claim mentions). -/
structure DB where
  videos : List VideoRow
  daily : List DailyRow
  deriving DecidableEq, Repr

/-- sqlite errors surfaced to Python as exceptions. -/
inductive DBError where
  | notNullViolation
  deriving DecidableEq, Repr

/-- The `profile_id` computation of `database.add_video`: the platform's raw
creator key for the four known platforms (`None` when absent), otherwise
`video_data.get('creator', 'unknown')`. -/
def computeProfileId (v : RawVideo) : Option String :=
  let platform := v.platform.getD "unknown"
  if platform = "instagram" then v.profile
  else if platform = "youtube" then v.channel_id
  else if platform = "tiktok" then v.username
  else if platform = "facebook" then v.page_id
  else some (v.creator.getD "unknown")

/-- `INSERT OR REPLACE INTO videos`, keyed by `id`. -/
def upsertVideoRow (rows : List VideoRow) (row : VideoRow) : List VideoRow :=
  (rows.filter fun r => decide (¬ r.id = row.id)) ++ [row]

/-- `database.add_video`: resolve `profile_id`; a `None` profile id violates
the NOT NULL constraint and raises, otherwise insert-or-replace the row built
from the record's fields (with `collection_date` stamped to `now`). -/
def add_video (now : String) (db : DB) (v : RawVideo) : Except DBError DB :=
  match computeProfileId v with
  | none => .error .notNullViolation
  | some pid =>
      let row : VideoRow :=
        ⟨v.id, v.platform.getD "unknown", pid, v.title.getD "Untitled Video",
         v.url.getD "", v.thumbnail.getD "", v.views.getD 0,
         v.performance_ratio.getD 1, v.post_date.getD now, now⟩
      .ok { db with videos := upsertVideoRow db.videos row }

/-- `INSERT OR REPLACE INTO daily_top_videos`, keyed by (`date`, `video_id`). -/
def upsertDailyRow (rows : List DailyRow) (row : DailyRow) : List DailyRow :=
  (rows.filter fun r => decide (¬ (r.date = row.date ∧ r.video_id = row.video_id))) ++ [row]

/-- `database.add_daily_top_videos`: resolve the date (`today` when `None`),
first add every video via `add_video` (a raised error aborts the whole call,
as the Python exception propagates), then insert-or-replace one ranking row
per video with rank `i+1`; a record with no `id` key violates `video_id`'s
NOT NULL constraint. -/
def add_daily_top_videos (now : String) (today : ℤ) (db : DB) (videos : List RawVideo)
    (date : Option ℤ) : Except DBError DB :=
  let d := date.getD today
  do
    let db1 ← videos.foldlM (fun acc v => add_video now acc v) db
    videos.enum.foldlM (fun acc (p : ℕ × RawVideo) =>
      match p.2.id with
      | none => Except.error DBError.notNullViolation
      | some vid => Except.ok { acc with daily := upsertDailyRow acc.daily ⟨d, vid, p.1 + 1⟩ })
      db1

/-- What `json.load` produced for an import file: the file may be missing,
hold invalid JSON, parse to a non-list value, or parse to a list of records. -/
inductive FileData where
  | missing
  | invalidJson
  | notList
  | list (videos : List RawVideo)

/-- Python's `str.split(sep)`: split at every occurrence of `sep`, keeping
empty segments. -/
def pySplit : List Char → Char → List (List Char)
  | [], _ => [[]]
  | c :: cs, sep =>
    if c = sep then [] :: pySplit cs sep
    else
      match pySplit cs sep with
      | [] => [[c]]
      | h :: t => (c :: h) :: t

/-- The numeric value of a digit string. -/
def digitsVal (s : List Char) : ℕ :=
  s.foldl (fun n c => 10 * n + (c.toNat - 48)) 0

/-- The ASCII whitespace characters Python's `int()` strips from both ends
of its string argument. -/
def pyWhitespace (c : Char) : Bool :=
  c == ' ' || c == '\t' || c == '\n' || c == '\x0b' || c == '\x0c' || c == '\r'

/-- `str.strip()` as applied by Python's `int()`: drop surrounding
whitespace. -/
def pyStrip (s : List Char) : List Char :=
  ((s.dropWhile pyWhitespace).reverse.dropWhile pyWhitespace).reverse

/-- The part of Python's integer-literal grammar after the first digit:
digits, with single underscores allowed only between digits. -/
def pyUndTail : List Char → Bool
  | [] => true
  | c :: rest =>
      if c = '_' then
        match rest with
        | [] => false
        | c2 :: rest2 => c2.isDigit && pyUndTail rest2
      else c.isDigit && pyUndTail rest

/-- Python's digit-group grammar `digit (["_"] digit)*`: non-empty, starts
and ends with a digit, underscores only between digits. -/
def pyUndDigits (s : List Char) : Bool :=
  match s with
  | [] => false
  | c :: rest => c.isDigit && pyUndTail rest

/-- Python's `int()` on a string: strip surrounding whitespace, allow an
optional `-`/`+` sign, then digit groups with single underscores between
digits (`int("1_0") = 10`); anything else raises `ValueError`, modelled as
`none`.  (Non-ASCII digit and whitespace characters are outside the model.) -/
def pyInt (s : List Char) : Option ℤ :=
  let t := pyStrip s
  if t.headD ' ' = '-' then
    (if pyUndDigits t.tail then
      some (-(digitsVal (t.tail.filter (fun c => decide (c ≠ '_'))) : ℤ)) else none)
  else if t.headD ' ' = '+' then
    (if pyUndDigits t.tail then
      some ((digitsVal (t.tail.filter (fun c => decide (c ≠ '_'))) : ℤ)) else none)
  else if pyUndDigits t then
    some ((digitsVal (t.filter (fun c => decide (c ≠ '_'))) : ℤ))
  else none

/-- `os.path.basename`: everything after the last `/`. -/
def basename (p : List Char) : List Char :=
  (pySplit p '/').getLastD []

/-- The date inference of `database.import_from_json`: when the basename
starts with `videos-`, parse `int(filename.split('-')[1].split('.')[0])` and
map offset `n` to `n` days before today; a parse failure, or a basename not
starting with `videos-`, yields `none` (which `add_daily_top_videos` resolves
to today). -/
def inferDate (filename : List Char) (today : ℤ) : Option ℤ :=
  if ("videos-".toList).isPrefixOf filename then
    match pyInt ((pySplit ((pySplit filename '-').getD 1 []) '.').headD []) with
    | some n => some (today - n)
    | none => none
  else none

/-- `database.import_from_json`: a missing file, invalid JSON, or a non-list
value is reported as 0 records imported with the store untouched; a list is
handed to `add_daily_top_videos` with the date inferred from the basename
(errors raised there — e.g. NOT NULL violations — propagate). -/
def import_from_json (now : String) (today : ℤ) (db : DB) (json_file : List Char)
    (data : FileData) : Except DBError (ℕ × DB) :=
  match data with
  | .missing => .ok (0, db)
  | .invalidJson => .ok (0, db)
  | .notList => .ok (0, db)
  | .list videos => do
      let db' ← add_daily_top_videos now today db videos (inferDate (basename json_file) today)
      .ok (videos.length, db')

/-- The import loop of `database.initialize_database`: imports each file in
turn, ignoring the returned count; an exception raised by one import would
abort the loop. -/
def import_files (now : String) (today : ℤ) (db : DB)
    (files : List (List Char × FileData)) : Except DBError DB :=
  files.foldlM (fun acc f => (import_from_json now today acc f.1 f.2).map Prod.snd) db

/-- The four platforms whose raw creator key `add_video` consults. -/
def knownPlatforms : List String :=
  ["instagram", "youtube", "tiktok", "facebook"]

/-- A normalized record carries none of the four platform-specific creator
keys: normalization stores the creator only under `creator`. -/
theorem normalize_entry_no_platform_keys (now : String) (v : RawVideo) :
    (normalize_entry now v).profile = none ∧ (normalize_entry now v).channel_id = none ∧
    (normalize_entry now v).username = none ∧ (normalize_entry now v).page_id = none :=
  ⟨rfl, rfl, rfl, rfl⟩

/-- C4: for every record produced by `normalize_video_data` whose platform is
one of the four known platforms, `add_video` computes `profile_id = None` and
raises an integrity error instead of storing it (the `videos` table declares
`profile_id NOT NULL`), so `add_daily_top_videos` on a selection starting
with such a record fails on its first video; the `creator` field is consulted
only for platforms outside the four. -/
theorem add_video_normalized_integrity_error
    (now : String) (l : List RawVideo) (v : RawVideo)
    (hv : v ∈ normalize_video_data now l)
    (hp : v.platform.getD "unknown" ∈ knownPlatforms) :
    computeProfileId v = none ∧
    (∀ (now2 : String) (db : DB), add_video now2 db v = .error .notNullViolation) ∧
    (∀ (now2 : String) (today : ℤ) (db : DB) (rest : List RawVideo) (date : Option ℤ),
      add_daily_top_videos now2 today db (v :: rest) date = .error .notNullViolation) ∧
    (∀ w : RawVideo, w.platform.getD "unknown" ∉ knownPlatforms →
      computeProfileId w = some (w.creator.getD "unknown")) := by
  obtain ⟨u, -, rfl⟩ := List.mem_map.mp hv
  have hnone : computeProfileId (normalize_entry now u) = none := by
    simp only [knownPlatforms, List.mem_cons, List.not_mem_nil, or_false] at hp
    rcases hp with h | h | h | h <;>
      simp [computeProfileId, h, normalize_entry_no_platform_keys]
  refine ⟨hnone, ?_, ?_, ?_⟩
  · intro now2 db
    unfold add_video
    rw [hnone]
  · intro now2 today db rest date
    have h2 : add_video now2 db (normalize_entry now u) = .error .notNullViolation := by
      unfold add_video
      rw [hnone]
    unfold add_daily_top_videos
    rw [List.foldlM_cons, h2]
    rfl
  · intro w hw
    simp only [knownPlatforms, List.mem_cons, List.not_mem_nil, or_false, not_or] at hw
    obtain ⟨h1, h2, h3, h4⟩ := hw
    simp [computeProfileId, h1, h2, h3, h4]

/-- Witness for `add_video_normalized_integrity_error`: persisting the
normalized Instagram record of `c5raw` fails with an integrity error. -/
theorem add_video_normalized_integrity_error_witness :
    computeProfileId (normalize_entry "t" c5raw) = none ∧
    add_video "t2" ⟨[], []⟩ (normalize_entry "t" c5raw) = .error .notNullViolation ∧
    add_daily_top_videos "t2" 0 ⟨[], []⟩ [normalize_entry "t" c5raw] none
      = .error .notNullViolation ∧
    computeProfileId emptyRaw = some (emptyRaw.creator.getD "unknown") := by
  have h := add_video_normalized_integrity_error "t" [c5raw] (normalize_entry "t" c5raw)
    (by simp [normalize_video_data])
    (by simp [normalize_entry, c5raw, emptyRaw, knownPlatforms])
  exact ⟨h.1, h.2.1 "t2" ⟨[], []⟩, h.2.2.1 "t2" 0 ⟨[], []⟩ [] none,
    h.2.2.2 emptyRaw (by simp [emptyRaw, knownPlatforms])⟩

/-- `add_video` never touches the `daily_top_videos` table. -/
theorem add_video_preserves_daily (now : String) (db : DB) (v : RawVideo) (db2 : DB)
    (h : add_video now db v = .ok db2) : db2.daily = db.daily := by
  unfold add_video at h
  cases hc : computeProfileId v with
  | none => rw [hc] at h; cases h
  | some pid =>
      rw [hc] at h
      cases h
      rfl

/-- The video-upsert loop of `add_daily_top_videos` never touches the
`daily_top_videos` table. -/
theorem foldlM_add_video_daily (videos : List RawVideo) :
    ∀ (now : String) (db db1 : DB),
    videos.foldlM (fun acc v => add_video now acc v) db = .ok db1 → db1.daily = db.daily := by
  induction videos with
  | nil =>
      intro now db db1 h
      cases h
      rfl
  | cons v t ih =>
      intro now db db1 h
      rw [List.foldlM_cons] at h
      cases hv : add_video now db v with
      | error e => rw [hv] at h; cases h
      | ok db2 =>
          rw [hv] at h
          have := ih now db2 db1 h
          rw [this, add_video_preserves_daily now db v db2 hv]

/-- The ranking-insert loop of `add_daily_top_videos` succeeds whenever every
record carries an `id`, and its effect on the table is the fold of keyed
upserts. -/
theorem daily_insert_loop (d : ℤ) (L : List (ℕ × RawVideo)) :
    ∀ (acc : DB), (∀ p ∈ L, p.2.id.isSome) →
    (L.foldlM (fun acc (p : ℕ × RawVideo) =>
      match p.2.id with
      | none => Except.error DBError.notNullViolation
      | some vid => Except.ok { acc with daily := upsertDailyRow acc.daily ⟨d, vid, p.1 + 1⟩ })
      acc)
      = .ok ⟨acc.videos,
          L.foldl (fun rows p => upsertDailyRow rows ⟨d, p.2.id.getD "", p.1 + 1⟩) acc.daily⟩ := by
  induction L with
  | nil =>
      intro acc _
      rfl
  | cons p t ih =>
      intro acc hids
      obtain ⟨vid, hvid⟩ := Option.isSome_iff_exists.mp (hids p (List.mem_cons_self p t))
      rw [List.foldlM_cons, List.foldl_cons, hvid]
      have hrest : ∀ q ∈ t, q.2.id.isSome := fun q hq => hids q (List.mem_cons_of_mem p hq)
      exact ih ⟨acc.videos, upsertDailyRow acc.daily ⟨d, vid, p.1 + 1⟩⟩ hrest

/-- Folding keyed daily upserts whose keys never collide with the existing
date-`d` rows appends the new rows after the surviving date-`d` rows. -/
theorem filter_foldl_upsertDailyRow (d : ℤ) {α : Type} (f : α → String) (g : α → ℕ) :
    ∀ (L : List α) (rows0 : List DailyRow),
    (∀ r ∈ rows0, r.date = d → r.video_id ∉ L.map f) →
    (L.map f).Nodup →
    (L.foldl (fun rows p => upsertDailyRow rows ⟨d, f p, g p⟩) rows0).filter
        (fun r => decide (r.date = d))
      = rows0.filter (fun r => decide (r.date = d)) ++ L.map (fun p => ⟨d, f p, g p⟩) := by
  intro L
  induction L with
  | nil =>
      intro rows0 _ _
      simp
  | cons p t ih =>
      intro rows0 hkeys hnodup
      rw [List.foldl_cons]
      have hmemf : f p ∈ (p :: t).map f := List.mem_map_of_mem f (List.mem_cons_self p t)
      have hnodup' : (t.map f).Nodup := by
        rw [List.map_cons] at hnodup
        exact (List.nodup_cons.mp hnodup).2
      have hfp : f p ∉ t.map f := by
        rw [List.map_cons] at hnodup
        exact (List.nodup_cons.mp hnodup).1
      have hstep : (upsertDailyRow rows0 ⟨d, f p, g p⟩).filter (fun r => decide (r.date = d))
          = rows0.filter (fun r => decide (r.date = d)) ++ [⟨d, f p, g p⟩] := by
        unfold upsertDailyRow
        rw [List.filter_append]
        congr 1
        · rw [List.filter_filter]
          apply List.filter_congr
          intro r hr
          by_cases hd : r.date = d
          · have hne : r.video_id ≠ f p := by
              intro he
              exact (hkeys r hr hd) (he ▸ hmemf)
            simp [hd, hne]
          · simp [hd]
        · simp
      have hkeys' : ∀ r ∈ upsertDailyRow rows0 ⟨d, f p, g p⟩,
          r.date = d → r.video_id ∉ t.map f := by
        intro r hr hd
        unfold upsertDailyRow at hr
        rcases List.mem_append.mp hr with hr1 | hr2
        · intro hm
          apply hkeys r (List.mem_of_mem_filter hr1) hd
          rw [List.map_cons]
          exact List.mem_cons_of_mem _ hm
        · have hrp : r = ⟨d, f p, g p⟩ := by simpa using hr2
          rw [hrp]
          exact hfp
      rw [ih (upsertDailyRow rows0 ⟨d, f p, g p⟩) hkeys' hnodup', hstep]
      simp

/-- C3 counterexample: with rows for date 5 already stored from a previous
run (videos A and B), re-running `add_daily_top_videos` for date 5 with the
single video C leaves the stale rows in place: the rows stored for the date
are A, B, C — not exactly the new run's single row — and rank 1 is held by
both A and C. -/
theorem add_daily_top_videos_stale_rows_counterexample :
    (add_daily_top_videos "t" 5 ⟨[], [⟨5, "A", 1⟩, ⟨5, "B", 2⟩]⟩
        [{ emptyRaw with id := some "C" }] (some 5)).map DB.daily
      = Except.ok [⟨5, "A", 1⟩, ⟨5, "B", 2⟩, ⟨5, "C", 1⟩] ∧
    ¬ ([⟨5, "A", 1⟩, ⟨5, "B", 2⟩, ⟨5, "C", 1⟩] : List DailyRow).filter
        (fun r => decide (r.date = 5)) = [⟨5, "C", 1⟩] ∧
    (⟨5, "A", 1⟩ : DailyRow) ∈ ([⟨5, "A", 1⟩, ⟨5, "B", 2⟩, ⟨5, "C", 1⟩] : List DailyRow) ∧
    (⟨5, "A", 1⟩ : DailyRow).video_id ≠ (⟨5, "C", 1⟩ : DailyRow).video_id ∧
    (⟨5, "A", 1⟩ : DailyRow).rank = (⟨5, "C", 1⟩ : DailyRow).rank := by
  refine ⟨?_, ?_, ?_, ?_, ?_⟩
  · rfl
  · simp [List.filter, DailyRow.mk.injEq]
  · simp
  · simp
  · rfl

/-- C3 (amended): `add_daily_top_videos` replaces rows per (`date`,
`video_id`) key, so rows of a previous run for the same date survive unless
the same video id recurs; but for a date with no previously stored rows and
videos with present, pairwise-distinct ids, the rows stored for the date are
exactly (date, videos[i].id, i+1) and the ranks are contiguous 1..N. -/
theorem add_daily_top_videos_fresh_date
    (now : String) (today d : ℤ) (db db' : DB) (videos : List RawVideo)
    (hprior : ∀ r ∈ db.daily, r.date ≠ d)
    (hids : ∀ v ∈ videos, v.id.isSome)
    (hnodup : (videos.map RawVideo.id).Nodup)
    (hres : add_daily_top_videos now today db videos (some d) = .ok db') :
    db'.daily.filter (fun r => decide (r.date = d))
      = videos.enum.map (fun p => ⟨d, p.2.id.getD "", p.1 + 1⟩) ∧
    (db'.daily.filter (fun r => decide (r.date = d))).map DailyRow.rank
      = (List.range videos.length).map (fun i => i + 1) := by
  unfold add_daily_top_videos at hres
  cases h1 : videos.foldlM (fun acc v => add_video now acc v) db with
  | error e =>
      rw [h1] at hres
      cases hres
  | ok db1 =>
      rw [h1] at hres
      have hid2 : ∀ p ∈ videos.enum, p.2.id.isSome := by
        intro p hp
        apply hids p.2
        have := List.mem_map_of_mem Prod.snd hp
        rwa [List.enum_map_snd] at this
      have hloop := daily_insert_loop d videos.enum db1 hid2
      have hres2 : videos.enum.foldlM (fun acc (p : ℕ × RawVideo) =>
          match p.2.id with
          | none => Except.error DBError.notNullViolation
          | some vid => Except.ok { acc with daily := upsertDailyRow acc.daily ⟨d, vid, p.1 + 1⟩ })
          db1 = Except.ok db' := hres
      rw [hloop] at hres2
      cases hres2
      have hnodup2 : (videos.enum.map (fun p => p.2.id.getD "")).Nodup := by
        have he : videos.enum.map (fun p : ℕ × RawVideo => p.2.id.getD "")
            = (videos.map RawVideo.id).map (fun o => o.getD "") := by
          have h2 : videos.enum.map (fun p : ℕ × RawVideo => p.2.id.getD "")
              = (videos.enum.map Prod.snd).map (fun v => v.id.getD "") := by
            rw [List.map_map]
            rfl
          rw [h2, List.enum_map_snd, List.map_map]
          rfl
        rw [he]
        apply hnodup.map_on
        intro x hx y hy hxy
        obtain ⟨vx, hvx, rfl⟩ := List.mem_map.mp hx
        obtain ⟨vy, hvy, rfl⟩ := List.mem_map.mp hy
        obtain ⟨a, ha⟩ := Option.isSome_iff_exists.mp (hids vx hvx)
        obtain ⟨b, hb⟩ := Option.isSome_iff_exists.mp (hids vy hvy)
        rw [ha, hb] at hxy ⊢
        simpa using hxy
      have hkeys0 : ∀ r ∈ db1.daily, r.date = d →
          r.video_id ∉ videos.enum.map (fun p => p.2.id.getD "") := by
        intro r hr hd
        rw [foldlM_add_video_daily videos now db db1 h1] at hr
        exact absurd hd (hprior r hr)
      have hmain := filter_foldl_upsertDailyRow d (fun p : ℕ × RawVideo => p.2.id.getD "")
        (fun p => p.1 + 1) videos.enum db1.daily hkeys0 hnodup2
      have hnil : db1.daily.filter (fun r => decide (r.date = d)) = [] := by
        rw [List.filter_eq_nil_iff]
        intro r hr
        rw [foldlM_add_video_daily videos now db db1 h1] at hr
        simpa using hprior r hr
      rw [hnil, List.nil_append] at hmain
      refine ⟨hmain, ?_⟩
      rw [hmain, List.map_map]
      have : videos.enum.map (fun p : ℕ × RawVideo => p.1 + 1)
      = (videos.enum.map Prod.fst).map (fun i => i + 1) := by
        rw [List.map_map]
        rfl
      rw [show (DailyRow.rank ∘ fun p : ℕ × RawVideo => (⟨d, p.2.id.getD "", p.1 + 1⟩ : DailyRow))
          = fun p : ℕ × RawVideo => p.1 + 1 from rfl, this, List.enum_map_fst]

/-- Witness for `add_daily_top_videos_fresh_date`: two videos A, B stored
into an empty store for day 3. -/
theorem add_daily_top_videos_fresh_date_witness :
    (⟨[⟨some "A", "unknown", "unknown", "Untitled Video", "", "", 0, 1, "t", "t"⟩,
       ⟨some "B", "unknown", "unknown", "Untitled Video", "", "", 0, 1, "t", "t"⟩],
      [⟨3, "A", 1⟩, ⟨3, "B", 2⟩]⟩ : DB).daily.filter (fun r => decide (r.date = 3))
      = ([{ emptyRaw with id := some "A" }, { emptyRaw with id := some "B" }] :
          List RawVideo).enum.map (fun p => ⟨3, p.2.id.getD "", p.1 + 1⟩) ∧
    ((⟨[⟨some "A", "unknown", "unknown", "Untitled Video", "", "", 0, 1, "t", "t"⟩,
        ⟨some "B", "unknown", "unknown", "Untitled Video", "", "", 0, 1, "t", "t"⟩],
       [⟨3, "A", 1⟩, ⟨3, "B", 2⟩]⟩ : DB).daily.filter
        (fun r => decide (r.date = 3))).map DailyRow.rank
      = (List.range ([{ emptyRaw with id := some "A" }, { emptyRaw with id := some "B" }] :
          List RawVideo).length).map (fun i => i + 1) :=
  add_daily_top_videos_fresh_date "t" 3 3 ⟨[], []⟩ _
    [{ emptyRaw with id := some "A" }, { emptyRaw with id := some "B" }]
    (by simp) (by simp [emptyRaw]) (by simp [emptyRaw]) rfl

/-- `viral_identification.combine_platform_videos`: concatenates the four
platforms' loaded viral-video lists in platform order (a failed or empty
load contributes the empty list). -/
def combine_platform_videos (platformFiles : List (List RawVideo)) : List RawVideo :=
  platformFiles.flatten

/-- The outcome of `viral_identification.identify_viral_videos`: either the
randomly generated sample data (whose contents the claims do not constrain)
or the normal pipeline output. -/
inductive IdentifyResult where
  | sampleData
  | pipeline (top : List RawVideo)
  deriving DecidableEq

/-- The declared default of the `generate_samples` parameter of
`viral_identification.identify_viral_videos`. -/
def generate_samples_default : Bool := true

/-- `viral_identification.identify_viral_videos`: combine the platform
files; when that yields no videos and `generate_samples` is set, return
generated sample data; otherwise normalize, then select the top 10 with
`min_ratio` 2.0. -/
def identify_viral_videos_main (now : String) (platformFiles : List (List RawVideo))
    (generate_samples : Bool) : IdentifyResult :=
  let all_videos := combine_platform_videos platformFiles
  if all_videos = [] ∧ generate_samples then .sampleData
  else .pipeline (select_top_viral_videos (normalize_video_data now all_videos) 10 2)

/-- C7 counterexample: a caller who does not pass `generate_samples` gets
the default `True`, so a total failure (every platform contributing zero
videos) silently yields generated sample data, not an empty result. -/
theorem identify_viral_videos_default_samples_counterexample :
    generate_samples_default = true ∧
    identify_viral_videos_main "t" [[], [], [], []] generate_samples_default
      = IdentifyResult.sampleData ∧
    identify_viral_videos_main "t" [[], [], [], []] generate_samples_default
      ≠ IdentifyResult.pipeline [] := by
  refine ⟨rfl, rfl, ?_⟩
  intro h
  cases h

/-- C7 (amended): sample data is produced exactly when every platform
contributed zero videos AND `generate_samples` is true; but `generate_samples`
defaults to true, so the caller must explicitly pass `False` to receive the
empty result on total failure. -/
theorem identify_viral_videos_samples_iff (now : String)
    (platformFiles : List (List RawVideo)) (generate_samples : Bool) :
    (identify_viral_videos_main now platformFiles generate_samples
        = IdentifyResult.sampleData
      ↔ (combine_platform_videos platformFiles = [] ∧ generate_samples = true)) ∧
    (combine_platform_videos platformFiles = [] →
      identify_viral_videos_main now platformFiles false = IdentifyResult.pipeline []) ∧
    generate_samples_default = true := by
  refine ⟨?_, ?_, rfl⟩
  · unfold identify_viral_videos_main
    by_cases h : combine_platform_videos platformFiles = [] ∧ generate_samples = true
    · simp [h]
    · have hneg : ¬ (combine_platform_videos platformFiles = [] ∧ generate_samples = true) := by
        simpa using h
      rw [if_neg hneg]
      simp [h]
  · intro hc
    unfold identify_viral_videos_main
    rw [if_neg (by simp), hc]
    simp [normalize_video_data, select_top_viral_videos]

/-- Witness for `identify_viral_videos_samples_iff`. -/
theorem identify_viral_videos_samples_iff_witness :
    (identify_viral_videos_main "t" [[], [], [], []] false
        = IdentifyResult.sampleData
      ↔ (combine_platform_videos [[], [], [], []] = [] ∧ false = true)) ∧
    identify_viral_videos_main "t" [[], [], [], []] false = IdentifyResult.pipeline [] ∧
    generate_samples_default = true := by
  have h := identify_viral_videos_samples_iff "t" [[], [], [], []] false
  exact ⟨h.1, h.2.1 rfl, h.2.2⟩

/-- `str.split` on a string not containing the separator returns the whole
string as the only segment. -/
theorem pySplit_of_not_mem (s : List Char) (sep : Char) (h : sep ∉ s) :
    pySplit s sep = [s] := by
  induction s with
  | nil => rfl
  | cons c cs ih =>
      have hc : ¬ c = sep := fun he => h (he ▸ List.mem_cons_self c cs)
      have hcs : sep ∉ cs := fun hm => h (List.mem_cons_of_mem c hm)
      unfold pySplit
      rw [if_neg hc, ih hcs]

/-- `str.split` at the first separator occurrence. -/
theorem pySplit_append (a b : List Char) (sep : Char) (h : sep ∉ a) :
    pySplit (a ++ sep :: b) sep = a :: pySplit b sep := by
  induction a with
  | nil => simp [pySplit]
  | cons c cs ih =>
      have hc : ¬ c = sep := fun he => h (he ▸ List.mem_cons_self c cs)
      have hcs : sep ∉ cs := fun hm => h (List.mem_cons_of_mem c hm)
      rw [List.cons_append, pySplit, if_neg hc, ih hcs]

/-- A character that is not a digit does not occur in an all-digit string. -/
theorem not_mem_of_all_digits (c : Char) (hc : c.isDigit = false) (ds : List Char)
    (h2 : ds.all Char.isDigit) : c ∉ ds := by
  intro hm
  have := List.all_eq_true.mp h2 c hm
  rw [hc] at this
  cases this

/-- A digit is never equal to a given non-digit character. -/
theorem char_ne_of_isDigit (c x : Char) (h : c.isDigit = true) (hx : x.isDigit = false) :
    ¬ c = x := by
  intro he
  rw [he, hx] at h
  cases h

/-- Digits are not whitespace. -/
theorem pyWhitespace_eq_false (c : Char) (h : c.isDigit = true) : pyWhitespace c = false := by
  unfold pyWhitespace
  simp only [Bool.or_eq_false_iff, beq_eq_false_iff_ne, ne_eq]
  refine ⟨⟨⟨⟨⟨?_, ?_⟩, ?_⟩, ?_⟩, ?_⟩, ?_⟩ <;> exact char_ne_of_isDigit c _ h (by decide)

/-- `dropWhile` is the identity on a list none of whose members satisfy the
predicate. -/
theorem dropWhile_eq_self_of_forall {P : Char → Bool} (s : List Char)
    (h : ∀ c ∈ s, P c = false) : s.dropWhile P = s := by
  cases s with
  | nil => rfl
  | cons c cs =>
      rw [List.dropWhile_cons, h c (List.mem_cons_self c cs)]
      simp

/-- Stripping whitespace is the identity on all-digit strings. -/
theorem pyStrip_of_digits (s : List Char) (h : ∀ c ∈ s, c.isDigit = true) :
    pyStrip s = s := by
  have hws : ∀ c ∈ s, pyWhitespace c = false := fun c hc => pyWhitespace_eq_false c (h c hc)
  unfold pyStrip
  rw [dropWhile_eq_self_of_forall s hws,
    dropWhile_eq_self_of_forall s.reverse (fun c hc => hws c (List.mem_reverse.mp hc)),
    List.reverse_reverse]

/-- The digit-group tail accepts an all-digit string. -/
theorem pyUndTail_of_digits (s : List Char) (h : ∀ c ∈ s, c.isDigit = true) :
    pyUndTail s = true := by
  induction s with
  | nil => rfl
  | cons c cs ih =>
      have hc := h c (List.mem_cons_self c cs)
      unfold pyUndTail
      rw [if_neg (char_ne_of_isDigit c '_' hc (by decide)), hc,
        ih (fun x hx => h x (List.mem_cons_of_mem c hx))]
      rfl

/-- The digit-group grammar accepts a non-empty all-digit string. -/
theorem pyUndDigits_of_digits (s : List Char) (h1 : s ≠ []) (h2 : ∀ c ∈ s, c.isDigit = true) :
    pyUndDigits s = true := by
  cases s with
  | nil => exact absurd rfl h1
  | cons c cs =>
      show (c.isDigit && pyUndTail cs) = true
      rw [h2 c (List.mem_cons_self c cs),
        pyUndTail_of_digits cs (fun x hx => h2 x (List.mem_cons_of_mem c hx))]
      rfl

/-- Python's `int()` accepts a non-empty digit string at its value. -/
theorem pyInt_digits (ds : List Char) (h1 : ds ≠ []) (h2 : ds.all Char.isDigit) :
    pyInt ds = some ((digitsVal ds : ℤ)) := by
  have hds : ∀ c ∈ ds, c.isDigit = true := List.all_eq_true.mp h2
  have hstrip : pyStrip ds = ds := pyStrip_of_digits ds hds
  have hhead : ds.headD ' ' ∈ ds := by
    cases ds with
    | nil => exact absurd rfl h1
    | cons c cs => exact List.mem_cons_self c cs
  have hd := hds _ hhead
  have hfilter : ds.filter (fun c => decide (c ≠ '_')) = ds := by
    rw [List.filter_eq_self]
    intro c hc
    simpa using char_ne_of_isDigit c '_' (hds c hc) (by decide)
  unfold pyInt
  rw [hstrip, if_neg (char_ne_of_isDigit _ '-' hd (by decide)),
    if_neg (char_ne_of_isDigit _ '+' hd (by decide)),
    if_pos (pyUndDigits_of_digits ds h1 hds), hfilter]

/-- A path without `/` is its own basename. -/
theorem basename_of_no_slash (p : List Char) (h : '/' ∉ p) : basename p = p := by
  unfold basename
  rw [pySplit_of_not_mem p '/' h]
  rfl

/-- Date inference on a basename `videos-<digits>.json`: the parsed offset is
the digit string's value. -/
theorem inferDate_digits (today : ℤ) (ds : List Char) (h1 : ds ≠ [])
    (h2 : ds.all Char.isDigit) :
    inferDate ("videos-".toList ++ (ds ++ ".json".toList)) today
      = some (today - digitsVal ds) := by
  have hdash : '-' ∉ ds := not_mem_of_all_digits '-' (by decide) ds h2
  have hdot : '.' ∉ ds := not_mem_of_all_digits '.' (by decide) ds h2
  have hpre : ("videos-".toList).isPrefixOf ("videos-".toList ++ (ds ++ ".json".toList)) = true := by
    rw [List.isPrefixOf_iff_prefix]
    exact List.prefix_append _ _
  unfold inferDate
  rw [hpre]
  have hsplit1 : pySplit ("videos-".toList ++ (ds ++ ".json".toList)) '-'
      = "videos".toList :: pySplit (ds ++ ".json".toList) '-' := by
    have : "videos-".toList ++ (ds ++ ".json".toList)
        = "videos".toList ++ '-' :: (ds ++ ".json".toList) := by rfl
    rw [this]
    exact pySplit_append _ _ '-' (by decide)
  have hsplit2 : pySplit (ds ++ ".json".toList) '-' = [ds ++ ".json".toList] := by
    apply pySplit_of_not_mem
    intro hm
    rcases List.mem_append.mp hm with hm1 | hm2
    · exact hdash hm1
    · revert hm2
      decide
  have hsplit3 : pySplit (ds ++ ".json".toList) '.' = ds :: ["json".toList] := by
    have : ds ++ ".json".toList = ds ++ '.' :: "json".toList := by rfl
    rw [this, pySplit_append _ _ '.' hdot, pySplit_of_not_mem "json".toList '.' (by decide)]
  rw [hsplit1, hsplit2]
  simp only [List.getD_cons_succ, List.getD_cons_zero]
  rw [hsplit3]
  simp only [List.headD_cons]
  rw [pyInt_digits ds h1 h2]
  simp

/-- Date inference fails (and the import falls back to today) when the
basename does not start with `videos-`. -/
theorem inferDate_no_match (filename : List Char) (today : ℤ)
    (h : ("videos-".toList).isPrefixOf filename = false) :
    inferDate filename today = none := by
  unfold inferDate
  rw [h]
  rfl

/-- Date inference also fails (and the import falls back to today) when the
basename does start with `videos-` but the text between the first `-` and
the first `.` does not parse as a Python integer. -/
theorem inferDate_parse_fail (filename : List Char) (today : ℤ)
    (hpre : ("videos-".toList).isPrefixOf filename = true)
    (hint : pyInt ((pySplit ((pySplit filename '-').getD 1 []) '.').headD []) = none) :
    inferDate filename today = none := by
  unfold inferDate
  rw [hpre, hint]
  rfl

/-- C8 counterexample: `videos-2.backup.json` neither is of the form
`videos-<n>.json` for an integer `n` nor parses to an integer offset
(`2.backup` is not an integer), so the claim requires the fallback date
"today" (here 100); but the code takes the text before the first `.` of the
segment after the first `-`, parses `2`, and files the ranking under day 98
— two days before today. -/
theorem import_from_json_date_counterexample :
    inferDate "videos-2.backup.json".toList 100 = some 98 ∧
    (98 : ℤ) ≠ 100 ∧
    (import_from_json "t" 100 ⟨[], []⟩ "videos-2.backup.json".toList
        (.list [{ emptyRaw with id := some "A" }])).map (fun p => p.2.daily)
      = Except.ok [⟨98, "A", 1⟩] := by
  refine ⟨by decide, by decide, by rfl⟩

/-- Turning the `do`-block of a successful import into `Except.map`. -/
theorem import_from_json_list_eq (now : String) (today : ℤ) (db : DB)
    (json_file : List Char) (videos : List RawVideo) :
    import_from_json now today db json_file (.list videos)
      = (add_daily_top_videos now today db videos
          (inferDate (basename json_file) today)).map (fun db2 => (videos.length, db2)) := by
  unfold import_from_json
  cases h : add_daily_top_videos now today db videos (inferDate (basename json_file) today) with
  | error e =>
      rw [show Except.map (fun db2 => (videos.length, db2))
        (Except.error e : Except DBError DB) = Except.error e from rfl]
      rw [show (inferDate (basename json_file) today) = inferDate (basename json_file) today from rfl]
      simp only [h]
      rfl
  | ok db2 =>
      simp only [h]
      rfl

/-- C8 (amended): for a path whose basename is `videos-<digits>.json`, the
ranking is filed under "(digits) days before today", independent of
file content; the date falls back to today both when the basename does not
start with `videos-` and when it does but the text between the first `-` and
the first `.` does not parse as a Python integer.  Note the offset is parsed
from that segment, so a name like `videos-2.backup.json` still maps two days
back instead of falling back. -/
theorem import_from_json_date_inference
    (now : String) (today : ℤ) (db : DB) (videos : List RawVideo) (ds : List Char)
    (h1 : ds ≠ []) (h2 : ds.all Char.isDigit) :
    import_from_json now today db ("videos-".toList ++ (ds ++ ".json".toList)) (.list videos)
      = (add_daily_top_videos now today db videos (some (today - digitsVal ds))).map
          (fun db2 => (videos.length, db2)) ∧
    (∀ name : List Char, ("videos-".toList).isPrefixOf (basename name) = false →
      import_from_json now today db name (.list videos)
        = (add_daily_top_videos now today db videos (some today)).map
            (fun db2 => (videos.length, db2))) ∧
    (∀ name : List Char, ("videos-".toList).isPrefixOf (basename name) = true →
      pyInt ((pySplit ((pySplit (basename name) '-').getD 1 []) '.').headD []) = none →
      import_from_json now today db name (.list videos)
        = (add_daily_top_videos now today db videos (some today)).map
            (fun db2 => (videos.length, db2))) := by
  refine ⟨?_, ?_, ?_⟩
  · rw [import_from_json_list_eq]
    have hslash : '/' ∉ "videos-".toList ++ (ds ++ ".json".toList) := by
      intro hm
      rcases List.mem_append.mp hm with hm1 | hm2
      · revert hm1
        decide
      · rcases List.mem_append.mp hm2 with hm3 | hm4
        · exact not_mem_of_all_digits '/' (by decide) ds h2 hm3
        · revert hm4
          decide
    rw [basename_of_no_slash _ hslash, inferDate_digits today ds h1 h2]
  · intro name hname
    rw [import_from_json_list_eq, inferDate_no_match _ today hname]
    rfl
  · intro name hname hint
    rw [import_from_json_list_eq, inferDate_parse_fail _ today hname hint]
    rfl

/-- Witness for `import_from_json_date_inference`: importing
`videos-2.json`, `other.json` and `videos-x.json` with an empty record list
on day 100. -/
theorem import_from_json_date_inference_witness :
    import_from_json "t" 100 ⟨[], []⟩ ("videos-".toList ++ (['2'] ++ ".json".toList))
        (.list [])
      = (add_daily_top_videos "t" 100 ⟨[], []⟩ [] (some (100 - digitsVal ['2']))).map
          (fun db2 => (([] : List RawVideo).length, db2)) ∧
    import_from_json "t" 100 ⟨[], []⟩ "other.json".toList (.list [])
      = (add_daily_top_videos "t" 100 ⟨[], []⟩ [] (some 100)).map
          (fun db2 => (([] : List RawVideo).length, db2)) ∧
    import_from_json "t" 100 ⟨[], []⟩ "videos-x.json".toList (.list [])
      = (add_daily_top_videos "t" 100 ⟨[], []⟩ [] (some 100)).map
          (fun db2 => (([] : List RawVideo).length, db2)) := by
  have h := import_from_json_date_inference "t" 100 ⟨[], []⟩ [] ['2'] (by decide) (by decide)
  exact ⟨h.1, h.2.1 "other.json".toList (by decide),
    h.2.2 "videos-x.json".toList (by decide) (by decide)⟩

/-- C9: a missing file, a file with invalid JSON, or a file whose JSON value
is not a list makes `import_from_json` report 0 records imported, raise
nothing, and leave the store untouched; a multi-file import loop over such
files completes with the store unchanged. -/
theorem import_from_json_malformed (now : String) (today : ℤ) (db : DB) (name : List Char) :
    import_from_json now today db name .missing = .ok (0, db) ∧
    import_from_json now today db name .invalidJson = .ok (0, db) ∧
    import_from_json now today db name .notList = .ok (0, db) ∧
    (∀ files : List (List Char × FileData),
      (∀ f ∈ files, f.2 = .missing ∨ f.2 = .invalidJson ∨ f.2 = .notList) →
      import_files now today db files = .ok db) := by
  refine ⟨rfl, rfl, rfl, ?_⟩
  intro files
  induction files generalizing db with
  | nil =>
      intro _
      rfl
  | cons f t ih =>
      intro hall
      have hf := hall f (List.mem_cons_self f t)
      have ht : ∀ g ∈ t, g.2 = FileData.missing ∨ g.2 = FileData.invalidJson ∨
          g.2 = FileData.notList := fun g hg => hall g (List.mem_cons_of_mem f hg)
      unfold import_files at ih ⊢
      rw [List.foldlM_cons]
      rcases hf with h | h | h <;>
        · rw [h]
          exact ih db ht

/-- Witness for `import_from_json_malformed`: a loop over one missing and
one non-list file leaves the empty store unchanged. -/
theorem import_from_json_malformed_witness :
    import_from_json "t" 0 ⟨[], []⟩ "x.json".toList .missing = .ok (0, ⟨[], []⟩) ∧
    import_from_json "t" 0 ⟨[], []⟩ "x.json".toList .invalidJson = .ok (0, ⟨[], []⟩) ∧
    import_from_json "t" 0 ⟨[], []⟩ "x.json".toList .notList = .ok (0, ⟨[], []⟩) ∧
    import_files "t" 0 ⟨[], []⟩
        [("a.json".toList, FileData.missing), ("b.json".toList, FileData.notList)]
      = .ok ⟨[], []⟩ := by
  have h := import_from_json_malformed "t" 0 ⟨[], []⟩ "x.json".toList
  exact ⟨h.1, h.2.1, h.2.2.1, h.2.2.2 _ (by simp)⟩
